import Mathlib

/-!
Verification of the deforestation analysis pipeline
(`analise_desmatamento_municipios.py`) and its dashboard contract
(`app_dash.py`).

The pipeline's tabular operations (pandas / geopandas) are shallowly embedded:
a pandas float cell is a `PVal` (an exact rational, `NaN`, or a signed
infinity), a column is a `List PVal`, and each pipeline stage becomes an
explicit Lean function mirroring the corresponding source line.  Exact
rationals stand in for IEEE doubles; the NaN/infinity classification of the
IEEE operations (which the error-handling claims are about) is preserved
exactly.
-/

namespace Desmat

/-- A pandas float cell: a finite (exact rational) number, NaN, or ±∞. -/
inductive PVal where
  | num (q : ℚ)
  | nan
  | inf
  | ninf
deriving DecidableEq, Repr

/-- IEEE-style subtraction on pandas float cells (`Series.__sub__`). -/
def psub : PVal → PVal → PVal
  | .nan, _ => .nan
  | _, .nan => .nan
  | .num a, .num b => .num (a - b)
  | .num _, .inf => .ninf
  | .num _, .ninf => .inf
  | .inf, .num _ => .inf
  | .ninf, .num _ => .ninf
  | .inf, .inf => .nan
  | .inf, .ninf => .inf
  | .ninf, .inf => .ninf
  | .ninf, .ninf => .nan

/-- IEEE-style division on pandas float cells (`Series.__truediv__`):
division by zero yields a signed infinity (NaN only for 0/0), and NaN
propagates.  pandas float division never raises. -/
def pdiv : PVal → PVal → PVal
  | .nan, _ => .nan
  | _, .nan => .nan
  | .num a, .num b =>
      if b = 0 then (if a = 0 then .nan else if 0 < a then .inf else .ninf)
      else .num (a / b)
  | .num _, .inf => .num 0
  | .num _, .ninf => .num 0
  | .inf, .num b => if b < 0 then .ninf else .inf
  | .ninf, .num b => if b < 0 then .inf else .ninf
  | .inf, .inf => .nan
  | .inf, .ninf => .nan
  | .ninf, .inf => .nan
  | .ninf, .ninf => .nan

/-- The finite value of a cell, if any. -/
def toNum : PVal → Option ℚ
  | .num q => some q
  | _ => none

/-- The finite values of a column. -/
def numsOf (xs : List PVal) : List ℚ := xs.filterMap toNum

/-- Drop the NaN cells of a column (pandas `skipna` semantics). -/
def dropNan (xs : List PVal) : List PVal := xs.filter (fun v => decide (v ≠ .nan))

/-- IEEE minimum of two non-NaN cells (helper for the `skipna` fold). -/
def pvMinAux : PVal → PVal → PVal
  | .ninf, _ => .ninf
  | _, .ninf => .ninf
  | .num a, .num b => .num (min a b)
  | .num a, .inf => .num a
  | .inf, .num b => .num b
  | .inf, .inf => .inf
  | .nan, y => y
  | x, .nan => x

/-- IEEE maximum of two non-NaN cells (helper for the `skipna` fold). -/
def pvMaxAux : PVal → PVal → PVal
  | .inf, _ => .inf
  | _, .inf => .inf
  | .num a, .num b => .num (max a b)
  | .num a, .ninf => .num a
  | .ninf, .num b => .num b
  | .ninf, .ninf => .ninf
  | .nan, y => y
  | x, .nan => x

/-- pandas `Series.min()` (default `skipna=True`): NaN on an all-NaN column. -/
def pdMin (xs : List PVal) : PVal :=
  match dropNan xs with
  | [] => .nan
  | v :: vs => vs.foldl pvMinAux v

/-- pandas `Series.max()` (default `skipna=True`): NaN on an all-NaN column. -/
def pdMax (xs : List PVal) : PVal :=
  match dropNan xs with
  | [] => .nan
  | v :: vs => vs.foldl pvMaxAux v

/-- Min-max normalization of one column, embedding line 137
`(df[cols] - df[cols].min()) / (df[cols].max() - df[cols].min())`
restricted to a single column: every cell is shifted by the column's own
minimum and divided by the column's own range. -/
def minmaxCol (col : List PVal) : List PVal :=
  col.map (fun v => pdiv (psub v (pdMin col)) (psub (pdMax col) (pdMin col)))

/-- Line 137 applied to the analysis frame, held column-major: each analysis
column is normalized independently with its own min/max. -/
def dataNorm (t : List (List PVal)) : List (List PVal) := t.map minmaxCol

/-- Line 120 `df["desmat_prop"] = df["total_km2"] / df["area_municipio_km2"]`:
element-wise pandas division of the total column by the municipality-area
column. -/
def desmatProp (total area : List PVal) : List PVal := List.zipWith pdiv total area

/-- A pandas column label as it appears on the pivoted frame: a string key
column (`CD_MUN`, `NM_MUN`), an integer year label, or a whole-valued float
year label (the dtype `pivot_table` emits when the `year` field is
float-typed). -/
inductive PyLabel where
  | str (s : String)
  | int (n : ℤ)
  | float (n : ℤ)
deriving DecidableEq, Repr

/-- Python `str(label)`: a float label `2020.0` stringifies with the
trailing `.0`. -/
def pyStr : PyLabel → String
  | .str s => s
  | .int n => toString n
  | .float n => toString n ++ ".0"

/-- Python `str.isdigit` on ASCII strings: nonempty and all digit
characters. -/
def pyIsdigit (s : String) : Bool := !s.data.isEmpty && s.data.all Char.isDigit

/-- A cell of the wide Bronze frame: a float value or a string (the key
columns hold municipality codes and names). -/
inductive Cell where
  | pv (v : PVal)
  | str (s : String)
deriving DecidableEq, Repr

/-- The float value of a cell; a string cell contributes NaN. -/
def cellVal : Cell → PVal
  | .pv v => v
  | .str _ => .nan

/-- Line 98 `anos = [c for c in df_pivot.columns if str(c).isdigit()]`:
the year columns the code detects on the pivoted frame. -/
def anosOf (cols : List PyLabel) : List PyLabel :=
  cols.filter (fun c => pyIsdigit (pyStr c))

/-- The cells of one Bronze row that sit in the code-detected year columns
(`df_pivot[anos]` restricted to one row; the row is aligned with `cols`). -/
def rowYearVals (cols : List PyLabel) (row : List Cell) : List PVal :=
  (List.zip cols row).filterMap
    (fun p => if pyIsdigit (pyStr p.1) then some (cellVal p.2) else none)

/-- pandas `DataFrame.sum(axis=1)` (default `skipna=True`): the sum of the
finite values, 0 when there are none. -/
def pdSum (xs : List PVal) : PVal := .num (numsOf xs).sum

/-- Line 99 `df_pivot['total_km2'] = df_pivot[anos].sum(axis=1)` for one
row. -/
def totalKm2 (cols : List PyLabel) (row : List Cell) : PVal :=
  pdSum (rowYearVals cols row)

/-- Modelled from the spec: a stringified column name is a year-like token
when it is all digits or has the float-typed form the pivot may emit
(the dashboard's own detection pattern, `app_dash.py` line 35, is
`^\d\x7b4\x7d\.0$`). -/
def specYearLike (s : String) : Bool :=
  pyIsdigit s ||
    (s.data.length == 6 && (s.data.take 4).all Char.isDigit && s.data.drop 4 == ['.', '0'])

/-- Modelled from the spec: the row total over the generically detected
year columns, float-typed year labels included. -/
def totalSpec (cols : List PyLabel) (row : List Cell) : PVal :=
  pdSum ((List.zip cols row).filterMap
    (fun p => if specYearLike (pyStr p.1) then some (cellVal p.2) else none))

/-- A geo/tabular frame: named columns and rows aligned with them.
`gpd.GeoDataFrame()` is the frame with no columns and no rows. -/
structure GeoFrame where
  cols : List String
  rows : List (List Cell)
deriving DecidableEq, Repr

/-- Line 46 fallback value `gpd.GeoDataFrame()`: empty frame, no columns. -/
def emptyGeoFrame : GeoFrame := ⟨[], []⟩

/-- Lines 41-46: on any load failure both layers are replaced by empty
frames (the `except` branch assigns both). -/
def loadLayers (result : Except String (GeoFrame × GeoFrame)) : GeoFrame × GeoFrame :=
  match result with
  | .ok p => p
  | .error _ => (emptyGeoFrame, emptyGeoFrame)

/-- The cell of a row (aligned with `cols`) under a named column. -/
def cellAt (cols : List String) (row : List Cell) (c : String) : Cell :=
  match (List.zip cols row).find? (fun p => p.1 == c) with
  | some p => p.2
  | none => .str ""

/-- pandas column projection `df[[c1, ..., ck]]`: KeyError when any
requested column is absent — in particular on the empty frame, which has no
columns at all. -/
def selectCols (f : GeoFrame) (cs : List String) : Except String GeoFrame :=
  if cs.all (fun c => f.cols.contains c) then
    .ok ⟨cs, f.rows.map (fun r => cs.map (fun c => cellAt f.cols r c))⟩
  else .error "KeyError"

/-- Lines 54-55: keep only the rows whose `state` cell is `"PA"` when a
`state` column exists; absence of the column is a no-op. -/
def filterState (f : GeoFrame) : GeoFrame :=
  if f.cols.contains "state" then
    ⟨f.cols, f.rows.filter (fun r => cellAt f.cols r "state" == .str "PA")⟩
  else f

/-- Lines 62-63: rename a source-specific column when present. -/
def renameCol (f : GeoFrame) (old new : String) : GeoFrame :=
  if f.cols.contains old then
    ⟨f.cols.map (fun c => if c == old then new else c), f.rows⟩
  else f

/-- Lines 54-65 of the harmonization stage: state filter, uuid rename, then
the schema projections `gdf_desmat[['id_desmat','year','area_km','geometry']]`
and `gdf_mun[['CD_MUN','NM_MUN','geometry']]` (the CRS reprojection between
them is guarded by both layers being nonempty and does not touch the
schema, so it is a tabular no-op here). -/
def harmonize (desmat mun : GeoFrame) : Except String (GeoFrame × GeoFrame) :=
  let d0 := filterState desmat
  let d1 := renameCol d0 "uuid" "id_desmat"
  match selectCols d1 ["id_desmat", "year", "area_km", "geometry"] with
  | .error e => .error e
  | .ok d =>
    match selectCols mun ["CD_MUN", "NM_MUN", "geometry"] with
    | .error e => .error e
    | .ok m => .ok (d, m)

/-- An Intersection Record of the overlay output `gdf_inter`: municipality
code, municipality name, year, and computed intersection area in km². -/
structure IRec where
  cd : String
  nm : String
  year : ℤ
  area : ℚ
deriving DecidableEq, Repr

/-- The group-by key of lines 82-87. -/
def keyOf (r : IRec) : String × String × ℤ := (r.cd, r.nm, r.year)

/-- Lines 82-87 `gdf_inter.groupby(['CD_MUN','NM_MUN','year'])['area_km2'].sum()`:
one row per distinct key, holding the summed area for that key. -/
def groupSum (recs : List IRec) : List ((String × String × ℤ) × ℚ) :=
  ((recs.map keyOf).dedup).map
    (fun k => (k, ((recs.filter (fun r => decide (keyOf r = k))).map IRec.area).sum))

/-- One cell of lines 88-97
`df_ano.pivot_table(index=['CD_MUN','NM_MUN'], columns='year',
values='area_km2', fill_value=0)`: the default aggregation function of
`pivot_table` is the mean of the values sharing the cell's key, with the
fill value 0 when there are none. -/
def pivotCell (dfAno : List ((String × String × ℤ) × ℚ)) (cd nm : String) (y : ℤ) : ℚ :=
  let vals := (dfAno.filter (fun e => decide (e.1 = (cd, nm, y)))).map (fun e => e.2)
  if vals.length = 0 then 0 else vals.sum / vals.length

/-- Modelled from the spec: the same pivot with sum aggregation ("sums
intersected area by municipality and year"), for comparison with the
mean-aggregating `pivotCell` the code uses. -/
def pivotCellSum (dfAno : List ((String × String × ℤ) × ℚ)) (cd nm : String) (y : ℤ) : ℚ :=
  let vals := (dfAno.filter (fun e => decide (e.1 = (cd, nm, y)))).map (fun e => e.2)
  if vals.length = 0 then 0 else vals.sum

/-- The row keys of the pivoted Bronze frame: the distinct
(municipality code, municipality name) pairs of the aggregate. -/
def pivotRowKeys (dfAno : List ((String × String × ℤ) × ℚ)) : List (String × String) :=
  (dfAno.map (fun e => (e.1.1, e.1.2.1))).dedup

/-- A keyed tabular row for the Silver join: municipality code plus the
remaining fields. -/
def countKey (k : String) (l : List (String × List PVal)) : Nat :=
  (l.filter (fun r => r.1 == k)).length

/-- Line 118 `desmat.merge(ips, on="CD_MUN", how="left")`: every Bronze row
is emitted once per matching indicator row, or once with all indicator
fields NaN when no indicator row matches. `w` is the number of non-key
indicator columns. -/
def leftMerge (bronze ips : List (String × List PVal)) (w : Nat) :
    List (String × List PVal × List PVal) :=
  bronze.flatMap (fun b =>
    match ips.filter (fun r => r.1 == b.1) with
    | [] => [(b.1, b.2, List.replicate w PVal.nan)]
    | ms => ms.map (fun m => (b.1, b.2, m.2)))

/-- Key multiplicity in the merged Silver table. -/
def countKeyM (k : String) (l : List (String × List PVal × List PVal)) : Nat :=
  (l.filter (fun r => r.1 == k)).length

/-- The pairwise-complete rows of two columns: positions where both cells
are finite numbers (`pandas.DataFrame.corr` computes each entry over the
rows where both columns are non-null). -/
def paired (xs ys : List PVal) : List (ℚ × ℚ) :=
  (List.zip xs ys).filterMap
    (fun p => match toNum p.1, toNum p.2 with
      | some a, some b => some (a, b)
      | _, _ => none)

/-- Mean of the first components of the paired sample. -/
def mean1 (l : List (ℚ × ℚ)) : ℚ := (l.map (fun p => p.1)).sum / l.length

/-- Mean of the second components of the paired sample. -/
def mean2 (l : List (ℚ × ℚ)) : ℚ := (l.map (fun p => p.2)).sum / l.length

/-- Centered cross-product sum of the paired sample. -/
def sXY (l : List (ℚ × ℚ)) : ℚ :=
  (l.map (fun p => (p.1 - mean1 l) * (p.2 - mean2 l))).sum

/-- Centered square sum of the first column of the paired sample. -/
def sXX (l : List (ℚ × ℚ)) : ℚ :=
  (l.map (fun p => (p.1 - mean1 l) * (p.1 - mean1 l))).sum

/-- Centered square sum of the second column of the paired sample. -/
def sYY (l : List (ℚ × ℚ)) : ℚ :=
  (l.map (fun p => (p.2 - mean2 l) * (p.2 - mean2 l))).sum

/-- The Pearson correlation coefficient of a paired sample, as the real
number `sXY / √(sXX · sYY)`. -/
noncomputable def pearson (l : List (ℚ × ℚ)) : ℝ :=
  (sXY l : ℝ) / Real.sqrt ((sXX l : ℝ) * (sYY l : ℝ))

/-- One entry of line 138 `corr = data_norm.corr()`: NaN (`none`) when
either column is constant (zero centered square sum) on the
pairwise-complete rows — this covers the empty and single-row samples —
and the Pearson coefficient otherwise. -/
noncomputable def corrEntry (xs ys : List PVal) : Option ℝ :=
  if sXX (paired xs ys) = 0 ∨ sYY (paired xs ys) = 0 then none
  else some (pearson (paired xs ys))

/-- Line 138 over the column-major analysis frame: the full correlation
matrix. -/
noncomputable def corrMatrix (t : List (List PVal)) : List (List (Option ℝ)) :=
  t.map (fun x => t.map (fun y => corrEntry x y))

/-- A row is complete when no analysis cell is NaN. -/
def completeRow (r : List PVal) : Bool := r.all (fun v => decide (v ≠ .nan))

/-- Line 143 `data_norm.dropna()` on the row-major analysis frame: keep
exactly the rows with no null cell. -/
def dropna (rows : List (List PVal)) : List (List PVal) :=
  rows.filter completeRow

/-- Column `j` of a row-major frame. -/
def colAt (rows : List (List ℚ)) (j : Nat) : List ℚ :=
  rows.filterMap (fun r => r[j]?)

/-- Mean of a rational column. -/
def colMean (rows : List (List ℚ)) (j : Nat) : ℚ :=
  (colAt rows j).sum / (colAt rows j).length

/-- Biased variance of a rational column (`StandardScaler` uses the biased
estimator). -/
def colVar (rows : List (List ℚ)) (j : Nat) : ℚ :=
  ((colAt rows j).map (fun x => (x - colMean rows j) * (x - colMean rows j))).sum
    / (colAt rows j).length

/-- Line 143 `StandardScaler().fit_transform(...)`: shift each column by its
mean and divide by its standard deviation. -/
noncomputable def standardize (rows : List (List ℚ)) : List (List ℝ) :=
  rows.map (fun r => r.mapIdx
    (fun j x => ((x : ℝ) - (colMean rows j : ℝ)) / Real.sqrt (colVar rows j : ℝ)))

/-- Line 144 `pca.fit_transform(X)` with the fitted component matrix `W`
(one row per principal component): each sample row is projected onto each
component by an inner product, yielding one output row per input row with
one coordinate per component. -/
def pcaTransform (W X : List (List ℝ)) : List (List ℝ) :=
  X.map (fun r => W.map (fun w => (List.zipWith (fun a b => a * b) w r).sum))

/-- Line 142 `PCA(n_components=2)`. -/
def pcaNComponents : Nat := 2

/-- The finite values of a complete (NaN-free) row. -/
def rowNums (r : List PVal) : List ℚ := r.filterMap toNum

/-- Lines 142-144 end to end: drop the incomplete rows, standardize, and
project onto the fitted components. -/
noncomputable def pcaResult (W : List (List ℝ)) (rows : List (List PVal)) :
    List (List ℝ) :=
  pcaTransform W (standardize ((dropna rows).map rowNums))

/-- The pivoted Bronze columns when the year dtype is float: both key
columns plus the single year column `2020.0`. -/
def bronzeColsFloat : List PyLabel := [.str "CD_MUN", .str "NM_MUN", .float 2020]

/-- One Bronze row for the float-labelled pivot: 5 km² recorded under the
`2020.0` column. -/
def bronzeRowFloat : List Cell := [.str "1500107", .str "Abaetetuba", .pv (.num 5)]

/-!  ### Helper lemmas -/

theorem zipWith_getElem? {α β γ : Type} (f : α → β → γ) :
    ∀ (l₁ : List α) (l₂ : List β) (i : Nat),
      (List.zipWith f l₁ l₂)[i]? =
        match l₁[i]?, l₂[i]? with
        | some a, some b => some (f a b)
        | _, _ => none := by
  intro l₁
  induction l₁ with
  | nil => intro l₂ i; cases l₂ <;> simp
  | cons a t ih =>
    intro l₂ i
    cases l₂ with
    | nil => simp
    | cons b t₂ =>
      cases i with
      | zero => simp
      | succ n => simpa using ih t₂ n

/-!  ### Claims -/

/-- **C1.** The claim says the Bronze total column equals the sum over the
generically detected year columns, float-typed year labels included.  The
code's detector (`str(c).isdigit()`, line 98) rejects the float form
`"2020.0"` that the pivot emits when the year dtype is float (the dashboard
in this repository matches exactly that form), so on a float-labelled pivot
no year column is detected and the total is 0 while the year columns sum to
5: the code contradicts the documented intent. -/
theorem c1_total_misses_float_year_labels :
    specYearLike (pyStr (PyLabel.float 2020)) = true ∧
    pyIsdigit (pyStr (PyLabel.float 2020)) = false ∧
    anosOf bronzeColsFloat = [] ∧
    totalKm2 bronzeColsFloat bronzeRowFloat = .num 0 ∧
    totalSpec bronzeColsFloat bronzeRowFloat = .num 5 := by
  refine ⟨by decide, by decide, by decide, by decide, ?_⟩
  have hv : (List.zip bronzeColsFloat bronzeRowFloat).filterMap
      (fun p => if specYearLike (pyStr p.1) then some (cellVal p.2) else none) =
      [PVal.num 5] := by decide
  rw [totalSpec, hv]
  norm_num [pdSum, numsOf, toNum, List.filterMap_cons, List.filterMap_nil]

/-- **C2.** The claim says a failed boundary load degrades gracefully: the
loader substitutes empty layers and the harmonization/overlay stages then
run without raising, yielding an empty Bronze table.  The loader fallback
does substitute empty layers, but the very next stage — the schema
projection `gdf_desmat[['id_desmat','year','area_km','geometry']]` at
line 64 — raises a `KeyError` on a frame with no columns, so the pipeline
crashes before reaching the overlay. -/
theorem c2_empty_layer_fallback_crashes_at_projection :
    ∀ (e : String),
      loadLayers (.error e) = (emptyGeoFrame, emptyGeoFrame) ∧
      harmonize emptyGeoFrame emptyGeoFrame = .error "KeyError" := by
  intro e
  exact ⟨rfl, rfl⟩

/-- **C3 counterexample.** The claim says the deforestation proportion is
null/NaN whenever municipality area is zero.  In pandas float division a
positive total divided by a zero area yields +∞, not NaN: at total 5 km²
and area 0 the proportion is `inf`. -/
theorem c3_zero_area_gives_inf_not_nan :
    desmatProp [.num 5] [.num 0] = [.inf] ∧ PVal.inf ≠ PVal.nan := by
  exact ⟨rfl, by decide⟩

/-- **C3 (amended).** For every Silver row the proportion is the pandas
division of total deforested area by municipality area: a missing (NaN)
area yields NaN, while a zero area yields NaN only when the total is also
zero and a signed infinity otherwise; the computation is total and never
raises. -/
theorem c3_proportion_division_semantics :
    ∀ (total area : List PVal) (i : Nat) (q : ℚ),
      total[i]? = some (.num q) →
      ((area[i]? = some .nan → (desmatProp total area)[i]? = some .nan) ∧
       (area[i]? = some (.num 0) →
         (desmatProp total area)[i]? =
           some (if q = 0 then .nan else if 0 < q then .inf else .ninf))) := by
  intro total area i q hq
  constructor
  · intro ha
    rw [desmatProp, zipWith_getElem? pdiv total area i, hq, ha]
    simp [pdiv]
  · intro ha
    rw [desmatProp, zipWith_getElem? pdiv total area i, hq, ha]
    simp [pdiv]

/-- Witness for C3 (amended) at total 5 km² and area 0: the proportion
evaluates to +∞. -/
theorem c3_proportion_division_semantics_witness :
    (desmatProp [.num 5] [.num 0])[0]? =
      some (if (5 : ℚ) = 0 then PVal.nan else if 0 < (5 : ℚ) then PVal.inf else PVal.ninf) :=
  (c3_proportion_division_semantics [.num 5] [.num 0] 0 5 (by simp)).2 (by simp)

theorem foldl_pvMinAux_const (c : ℚ) :
    ∀ (vs : List PVal), (∀ v ∈ vs, v = PVal.num c) →
      vs.foldl pvMinAux (PVal.num c) = PVal.num c := by
  intro vs
  induction vs with
  | nil => intro _; rfl
  | cons w ws ih =>
    intro h
    have hw : w = PVal.num c := h w (List.mem_cons_self w ws)
    have : pvMinAux (PVal.num c) w = PVal.num c := by
      rw [hw]; simp [pvMinAux]
    rw [List.foldl_cons, this]
    exact ih (fun v hv => h v (List.mem_cons_of_mem w hv))

theorem foldl_pvMaxAux_const (c : ℚ) :
    ∀ (vs : List PVal), (∀ v ∈ vs, v = PVal.num c) →
      vs.foldl pvMaxAux (PVal.num c) = PVal.num c := by
  intro vs
  induction vs with
  | nil => intro _; rfl
  | cons w ws ih =>
    intro h
    have hw : w = PVal.num c := h w (List.mem_cons_self w ws)
    have : pvMaxAux (PVal.num c) w = PVal.num c := by
      rw [hw]; simp [pvMaxAux]
    rw [List.foldl_cons, this]
    exact ih (fun v hv => h v (List.mem_cons_of_mem w hv))

theorem dropNan_mem_const {col : List PVal} {c : ℚ}
    (h : ∀ v ∈ col, v = PVal.nan ∨ v = PVal.num c) :
    ∀ w ∈ dropNan col, w = PVal.num c := by
  intro w hw
  rw [dropNan, List.mem_filter] at hw
  rcases h w hw.1 with hn | hn
  · exact absurd hn (by simpa using hw.2)
  · exact hn

theorem pdMin_const {col : List PVal} {c : ℚ}
    (h : ∀ v ∈ col, v = PVal.nan ∨ v = PVal.num c) (hc : PVal.num c ∈ col) :
    pdMin col = PVal.num c := by
  have hmem : PVal.num c ∈ dropNan col := by
    rw [dropNan, List.mem_filter]
    exact ⟨hc, by simp⟩
  rw [pdMin]
  cases hd : dropNan col with
  | nil => rw [hd] at hmem; cases hmem
  | cons d ds =>
    have hall := dropNan_mem_const h
    rw [hd] at hall
    have hdc : d = PVal.num c := hall d (List.mem_cons_self d ds)
    rw [hdc]
    exact foldl_pvMinAux_const c ds (fun v hv => hall v (List.mem_cons_of_mem d hv))

theorem pdMax_const {col : List PVal} {c : ℚ}
    (h : ∀ v ∈ col, v = PVal.nan ∨ v = PVal.num c) (hc : PVal.num c ∈ col) :
    pdMax col = PVal.num c := by
  have hmem : PVal.num c ∈ dropNan col := by
    rw [dropNan, List.mem_filter]
    exact ⟨hc, by simp⟩
  rw [pdMax]
  cases hd : dropNan col with
  | nil => rw [hd] at hmem; cases hmem
  | cons d ds =>
    have hall := dropNan_mem_const h
    rw [hd] at hall
    have hdc : d = PVal.num c := hall d (List.mem_cons_self d ds)
    rw [hdc]
    exact foldl_pvMaxAux_const c ds (fun v hv => hall v (List.mem_cons_of_mem d hv))

/-- **C10.** When every non-null value of an analysis column equals the
same constant (so the column's minimum equals its maximum), min-max
normalization divides by a zero range: 0/0 in pandas is NaN, so every cell
of the normalized column is NaN and no division error is raised — the
min-to-0/max-to-1 property can only hold when min < max. -/
theorem c10_constant_column_normalizes_to_nan :
    ∀ (col : List PVal) (c : ℚ),
      (∀ v ∈ col, v = PVal.nan ∨ v = PVal.num c) → PVal.num c ∈ col →
      ∀ i, i < col.length → (minmaxCol col)[i]? = some PVal.nan := by
  intro col c h hc i hi
  have hmin := pdMin_const h hc
  have hmax := pdMax_const h hc
  rw [minmaxCol, hmin, hmax, List.getElem?_map, List.getElem?_eq_getElem hi]
  have hv := List.getElem_mem hi
  rcases h _ hv with hn | hn <;> rw [hn] <;> simp [psub, pdiv, sub_self]

/-- Witness for C10: a column whose non-null entries are all 3 normalizes
to NaN in every position. -/
theorem c10_constant_column_normalizes_to_nan_witness :
    (minmaxCol [PVal.num 3, PVal.nan, PVal.num 3])[0]? = some PVal.nan :=
  c10_constant_column_normalizes_to_nan [PVal.num 3, PVal.nan, PVal.num 3] 3
    (by decide) (by decide) 0 (by decide)

/-- **C6.** Min-max normalization scales each analysis column independently
by that column's own minimum and maximum: when the column minimum `m` is
strictly below the maximum `M` (the regime C10 carves out), a cell at the
minimum maps to 0, a cell at the maximum maps to 1, and a null cell passes
through as null. -/
theorem c6_minmax_normalization :
    ∀ (t : List (List PVal)) (j : Nat) (col : List PVal) (m M : ℚ),
      t[j]? = some col → pdMin col = PVal.num m → pdMax col = PVal.num M → m < M →
      (dataNorm t)[j]? = some (minmaxCol col) ∧
      ∀ i : Nat,
        ((col[i]? = some (PVal.num m) → (minmaxCol col)[i]? = some (PVal.num 0)) ∧
         (col[i]? = some (PVal.num M) → (minmaxCol col)[i]? = some (PVal.num 1)) ∧
         (col[i]? = some PVal.nan → (minmaxCol col)[i]? = some PVal.nan)) := by
  intro t j col m M ht hmin hmax hlt
  have hne : M - m ≠ 0 := sub_ne_zero_of_ne (ne_of_gt hlt)
  constructor
  · rw [dataNorm, List.getElem?_map, ht]; rfl
  · intro i
    refine ⟨?_, ?_, ?_⟩ <;> intro hv
    · rw [minmaxCol, hmin, hmax, List.getElem?_map, hv]
      simp [psub, pdiv, hne, sub_self]
    · rw [minmaxCol, hmin, hmax, List.getElem?_map, hv]
      simp [psub, pdiv, hne, div_self hne]
    · rw [minmaxCol, hmin, hmax, List.getElem?_map, hv]
      simp [psub, pdiv]

/-- Witness for C6 on the column `[1, 3, NaN]`: min 1 maps to 0, max 3 maps
to 1, NaN passes through. -/
theorem c6_minmax_normalization_witness :
    (dataNorm [[PVal.num 1, PVal.num 3, PVal.nan]])[0]? =
      some (minmaxCol [PVal.num 1, PVal.num 3, PVal.nan]) ∧
    (minmaxCol [PVal.num 1, PVal.num 3, PVal.nan])[0]? = some (PVal.num 0) ∧
    (minmaxCol [PVal.num 1, PVal.num 3, PVal.nan])[1]? = some (PVal.num 1) ∧
    (minmaxCol [PVal.num 1, PVal.num 3, PVal.nan])[2]? = some PVal.nan := by
  have h := c6_minmax_normalization [[PVal.num 1, PVal.num 3, PVal.nan]] 0
    [PVal.num 1, PVal.num 3, PVal.nan] 1 3 rfl (by decide) (by decide) (by norm_num)
  exact ⟨h.1, (h.2 0).1 rfl, (h.2 1).2.1 rfl, (h.2 2).2.2 rfl⟩

theorem nodup_filter_eq_self {α : Type} [DecidableEq α] (K : α) :
    ∀ (l : List α), l.Nodup →
      l.filter (fun x => decide (x = K)) = if K ∈ l then [K] else [] := by
  intro l
  induction l with
  | nil => intro _; simp
  | cons a t ih =>
    intro h
    rcases List.nodup_cons.mp h with ⟨ha, ht⟩
    by_cases hK : a = K
    · subst hK
      rw [List.filter_cons_of_pos (by simp), ih ht, if_neg ha, if_pos (List.mem_cons_self a t)]
    · rw [List.filter_cons_of_neg (by simpa using hK), ih ht]
      by_cases hKt : K ∈ t
      · rw [if_pos hKt, if_pos (List.mem_cons_of_mem a hKt)]
      · rw [if_neg hKt, if_neg (by
          intro hmem
          rcases List.mem_cons.mp hmem with he | he
          · exact hK he.symm
          · exact hKt he)]

theorem groupSum_filter (recs : List IRec) (K : String × String × ℤ) :
    (groupSum recs).filter (fun e => decide (e.1 = K)) =
      if K ∈ (recs.map keyOf).dedup
      then [(K, ((recs.filter (fun r => decide (keyOf r = K))).map IRec.area).sum)]
      else [] := by
  rw [groupSum, List.filter_map]
  have hcomp : ((fun e : (String × String × ℤ) × ℚ => decide (e.1 = K)) ∘
      (fun k => (k, ((recs.filter (fun r => decide (keyOf r = k))).map IRec.area).sum))) =
      fun k => decide (k = K) := funext fun k => by simp
  rw [hcomp, nodup_filter_eq_self K _ (List.nodup_dedup _)]
  by_cases hK : K ∈ (recs.map keyOf).dedup
  · rw [if_pos hK, if_pos hK]; rfl
  · rw [if_neg hK, if_neg hK]; rfl

theorem pivotCell_groupSum (recs : List IRec) (cd nm : String) (y : ℤ) :
    pivotCell (groupSum recs) cd nm y =
      ((recs.filter (fun r => decide (keyOf r = (cd, nm, y)))).map IRec.area).sum := by
  rw [pivotCell]
  rw [groupSum_filter recs (cd, nm, y)]
  by_cases hK : (cd, nm, y) ∈ (recs.map keyOf).dedup
  · rw [if_pos hK]
    simp
  · rw [if_neg hK]
    have hnil : recs.filter (fun r => decide (keyOf r = (cd, nm, y))) = [] := by
      rw [List.filter_eq_nil_iff]
      intro r hr hcontra
      exact hK (List.mem_dedup.mpr (List.mem_map.mpr ⟨r, hr, by simpa using hcontra⟩))
    rw [hnil]
    simp

theorem pivotCellSum_groupSum (recs : List IRec) (cd nm : String) (y : ℤ) :
    pivotCellSum (groupSum recs) cd nm y =
      ((recs.filter (fun r => decide (keyOf r = (cd, nm, y)))).map IRec.area).sum := by
  rw [pivotCellSum]
  rw [groupSum_filter recs (cd, nm, y)]
  by_cases hK : (cd, nm, y) ∈ (recs.map keyOf).dedup
  · rw [if_pos hK]
    simp
  · rw [if_neg hK]
    have hnil : recs.filter (fun r => decide (keyOf r = (cd, nm, y))) = [] := by
      rw [List.filter_eq_nil_iff]
      intro r hr hcontra
      exact hK (List.mem_dedup.mpr (List.mem_map.mpr ⟨r, hr, by simpa using hcontra⟩))
    rw [hnil]
    simp

/-- **C5.** The Aggregator groups Intersection Records by (municipality
code, municipality name, year) summing area, then pivots to one row per
municipality key with one column per year, filling absent combinations
with 0: every pivot cell equals the plain sum of the areas of the matching
Intersection Records (0 when there are none), the pivoted row keys are
duplicate-free, and two records of 3 km² and 2 km² for municipality "X"
in 2020 produce exactly one row for "X" with the 2020 cell equal to 5. -/
theorem c5_aggregator_pivot :
    (∀ (recs : List IRec) (cd nm : String) (y : ℤ),
      pivotCell (groupSum recs) cd nm y =
        ((recs.filter (fun r => decide (keyOf r = (cd, nm, y)))).map IRec.area).sum ∧
      (pivotRowKeys (groupSum recs)).Nodup) ∧
    pivotRowKeys (groupSum [⟨"X", "X", 2020, 3⟩, ⟨"X", "X", 2020, 2⟩]) = [("X", "X")] ∧
    pivotCell (groupSum [⟨"X", "X", 2020, 3⟩, ⟨"X", "X", 2020, 2⟩]) "X" "X" 2020 = 5 := by
  refine ⟨fun recs cd nm y => ⟨pivotCell_groupSum recs cd nm y, List.nodup_dedup _⟩, rfl, ?_⟩
  norm_num [pivotCell, groupSum, keyOf, List.dedup]

theorem countKeyM_leftMerge (ips : List (String × List PVal)) (w : Nat) (k : String) :
    ∀ (bronze : List (String × List PVal)),
      countKeyM k (leftMerge bronze ips w) =
        countKey k bronze * max (countKey k ips) 1 := by
  intro bronze
  induction bronze with
  | nil => simp [leftMerge, countKeyM, countKey]
  | cons b bs ih =>
    have hsplit : leftMerge (b :: bs) ips w =
        (match ips.filter (fun r => r.1 == b.1) with
         | [] => [(b.1, b.2, List.replicate w PVal.nan)]
         | ms => ms.map (fun m => (b.1, b.2, m.2))) ++ leftMerge bs ips w := by
      rw [leftMerge, List.flatMap_cons]; rfl
    have happ : ∀ (x y : List (String × List PVal × List PVal)),
        countKeyM k (x ++ y) = countKeyM k x + countKeyM k y := by
      intro x y; simp [countKeyM, List.filter_append]
    rw [hsplit, happ, ih]
    have hcount : countKey k (b :: bs) =
        (if b.1 = k then 1 else 0) + countKey k bs := by
      by_cases hbk : b.1 = k
      · rw [countKey, List.filter_cons_of_pos (by simpa using hbk), if_pos hbk]
        simp [countKey]
        omega
      · rw [countKey, List.filter_cons_of_neg (by simpa using hbk), if_neg hbk]
        simp [countKey]
    have hblock : countKeyM k
        (match ips.filter (fun r => r.1 == b.1) with
         | [] => [(b.1, b.2, List.replicate w PVal.nan)]
         | ms => ms.map (fun m => (b.1, b.2, m.2))) =
        if b.1 = k then max (countKey k ips) 1 else 0 := by
      cases hf : ips.filter (fun r => r.1 == b.1) with
      | nil =>
        by_cases hbk : b.1 = k
        · have h0 : countKey k ips = 0 := by
            rw [countKey, ← hbk, hf]; rfl
          rw [if_pos hbk, h0]
          simp [countKeyM, List.filter_cons, hbk]
        · rw [if_neg hbk]
          simp [countKeyM, List.filter_cons, hbk]
      | cons m ms =>
        have hmap : List.filter (fun r => r.1 == k)
            ((m :: ms).map (fun x => (b.1, b.2, x.2))) =
            ((m :: ms).filter (fun _ => b.1 == k)).map (fun x => (b.1, b.2, x.2)) := by
          rw [List.filter_map]; rfl
        by_cases hbk : b.1 = k
        · have hck : countKey k ips = (m :: ms).length := by
            rw [countKey, ← hbk, hf]
          rw [if_pos hbk, hck, countKeyM, hmap]
          have : (m :: ms).filter (fun _ => b.1 == k) = m :: ms := by
            apply List.filter_eq_self.mpr
            intro a _; simpa using hbk
          rw [this, List.length_map]
          have hpos : 1 ≤ (m :: ms).length := by simp
          omega
        · rw [if_neg hbk, countKeyM, hmap]
          have : (m :: ms).filter (fun _ => b.1 == k) = [] := by
            apply List.filter_eq_nil_iff.mpr
            intro a _; simpa using hbk
          rw [this]
          rfl
    rw [hblock, hcount]
    by_cases hbk : b.1 = k
    · simp only [hbk, if_pos]
      ring
    · simp [hbk]

theorem leftMerge_nulls (bronze ips : List (String × List PVal)) (w : Nat) (k : String)
    (h0 : countKey k ips = 0) :
    ∀ r ∈ leftMerge bronze ips w, r.1 = k → r.2.2 = List.replicate w PVal.nan := by
  intro r hr hk
  rcases List.mem_flatMap.mp hr with ⟨b, hb, hrb⟩
  cases hf : ips.filter (fun x => x.1 == b.1) with
  | nil =>
    simp only [hf] at hrb
    rcases List.mem_singleton.mp hrb with h
    rw [h]
  | cons m ms =>
    simp only [hf] at hrb
    rcases List.mem_map.mp hrb with ⟨x, _, hx⟩
    have hb1 : b.1 = k := by rw [← hk, ← hx]
    have : ips.filter (fun x => x.1 == k) = [] :=
      List.length_eq_zero.mp h0
    rw [← hb1] at this
    rw [this] at hf
    cases hf

/-- **C4.** The Silver join is a left join on municipality code: a code
appearing once in Bronze appears exactly once in the merged Silver table
whether or not the indicator table (keyed, so at most one row per code)
contains it, and when the indicator table lacks the code the indicator
fields of that Silver row are all null rather than the row being
dropped. -/
theorem c4_left_join (bronze ips : List (String × List PVal)) (w : Nat) (k : String)
    (h1 : countKey k bronze = 1) (h2 : countKey k ips ≤ 1) :
    countKeyM k (leftMerge bronze ips w) = 1 ∧
    (countKey k ips = 0 →
      ∀ r ∈ leftMerge bronze ips w, r.1 = k → r.2.2 = List.replicate w PVal.nan) := by
  constructor
  · rw [countKeyM_leftMerge, h1, one_mul]
    omega
  · intro h0
    exact leftMerge_nulls bronze ips w k h0

/-- Witness for C4: Bronze row for code "01" with an empty indicator table
survives the merge exactly once, with NaN indicator fields. -/
theorem c4_left_join_witness :
    countKeyM "01" (leftMerge [("01", [PVal.num 5])] [] 2) = 1 ∧
    leftMerge [("01", [PVal.num 5])] [] 2 = [("01", [PVal.num 5], [PVal.nan, PVal.nan])] :=
  ⟨(c4_left_join [("01", [PVal.num 5])] [] 2 "01" (by decide) (by decide)).1, by decide⟩

theorem list_sum_map_eq_finsum {α : Type} (l : List α) (f : α → ℚ) :
    (l.map f).sum = ∑ i : Fin l.length, f (l.get i) := by
  conv_lhs => rw [← List.ofFn_get l, List.map_ofFn, List.sum_ofFn]
  rfl

theorem sXX_nonneg (l : List (ℚ × ℚ)) : 0 ≤ sXX l := by
  apply List.sum_nonneg
  intro x hx
  rcases List.mem_map.mp hx with ⟨p, _, hp⟩
  rw [← hp]
  exact mul_self_nonneg _

theorem sYY_nonneg (l : List (ℚ × ℚ)) : 0 ≤ sYY l := by
  apply List.sum_nonneg
  intro x hx
  rcases List.mem_map.mp hx with ⟨p, _, hp⟩
  rw [← hp]
  exact mul_self_nonneg _

theorem sq_sXY_le (l : List (ℚ × ℚ)) : sXY l * sXY l ≤ sXX l * sYY l := by
  rw [sXY, sXX, sYY, list_sum_map_eq_finsum, list_sum_map_eq_finsum,
    list_sum_map_eq_finsum]
  have h := Finset.sum_mul_sq_le_sq_mul_sq Finset.univ
    (fun i : Fin l.length => (l.get i).1 - mean1 l)
    (fun i : Fin l.length => (l.get i).2 - mean2 l)
  simpa only [pow_two] using h

theorem paired_swap (xs ys : List PVal) :
    paired ys xs = (paired xs ys).map Prod.swap := by
  rw [paired, paired, ← List.zip_swap xs ys, List.filterMap_map, List.map_filterMap]
  congr 1
  funext p
  cases h1 : toNum p.1 <;> cases h2 : toNum p.2 <;>
    simp [Function.comp, Prod.swap, h1, h2]

theorem mean1_swap (l : List (ℚ × ℚ)) : mean1 (l.map Prod.swap) = mean2 l := by
  simp [mean1, mean2, List.map_map, Function.comp_def, Prod.swap]

theorem mean2_swap (l : List (ℚ × ℚ)) : mean2 (l.map Prod.swap) = mean1 l := by
  simp [mean1, mean2, List.map_map, Function.comp_def, Prod.swap]

theorem sXY_swap (l : List (ℚ × ℚ)) : sXY (l.map Prod.swap) = sXY l := by
  rw [sXY, sXY, mean1_swap, mean2_swap, List.map_map]
  congr 1
  apply List.map_congr_left
  intro p _
  simp [Function.comp, Prod.swap]
  ring

theorem sXX_swap (l : List (ℚ × ℚ)) : sXX (l.map Prod.swap) = sYY l := by
  rw [sXX, sYY, mean1_swap, List.map_map]
  congr 1

theorem sYY_swap (l : List (ℚ × ℚ)) : sYY (l.map Prod.swap) = sXX l := by
  rw [sYY, sXX, mean2_swap, List.map_map]
  congr 1

theorem zip_self {α : Type} : ∀ (l : List α), l.zip l = l.map (fun v => (v, v)) := by
  intro l
  induction l with
  | nil => rfl
  | cons a t ih => simp [List.zip_cons_cons, ih]

theorem paired_self (x : List PVal) :
    paired x x = (numsOf x).map (fun q => (q, q)) := by
  rw [paired, zip_self, List.filterMap_map, numsOf, List.map_filterMap]
  congr 1
  funext v
  cases h : toNum v <;> simp [Function.comp, h]

theorem mean_self (x : List PVal) :
    mean1 (paired x x) = mean2 (paired x x) := by
  rw [paired_self]
  simp [mean1, mean2, List.map_map, Function.comp_def]

theorem sXY_self (x : List PVal) : sXY (paired x x) = sXX (paired x x) := by
  rw [sXY, sXX, mean_self, paired_self]
  simp only [List.map_map]
  congr 1

theorem sYY_self (x : List PVal) : sYY (paired x x) = sXX (paired x x) := by
  rw [sYY, sXX, mean_self, paired_self]
  simp only [List.map_map]
  congr 1

/-- **C7.** Line 138's correlation matrix over the normalized analysis
columns is square (one row per column, one entry per column pair),
symmetric (the (x,y) entry equals the (y,x) entry), every defined diagonal
entry equals 1 (defined whenever the column is non-constant on its
non-null rows), and every defined entry — off-diagonal ones included —
lies in [-1, 1]; NaN entries (`none`) arise exactly when a column is
constant on the pairwise-complete rows. -/
theorem c7_correlation_matrix (t : List (List PVal)) :
    (corrMatrix t).length = t.length ∧
    (∀ row ∈ corrMatrix t, row.length = t.length) ∧
    (∀ x y : List PVal, corrEntry y x = corrEntry x y) ∧
    (∀ x : List PVal, sXX (paired x x) ≠ 0 → corrEntry x x = some 1) ∧
    (∀ (x y : List PVal) (r : ℝ), corrEntry x y = some r → -1 ≤ r ∧ r ≤ 1) := by
  refine ⟨by simp [corrMatrix], ?_, ?_, ?_, ?_⟩
  · intro row hrow
    rcases List.mem_map.mp hrow with ⟨x, _, hx⟩
    rw [← hx]
    simp
  · intro x y
    simp only [corrEntry, pearson, paired_swap x y, sXX_swap, sYY_swap, sXY_swap]
    by_cases h : sXX (paired x y) = 0 ∨ sYY (paired x y) = 0
    · rw [if_pos (by tauto), if_pos h]
    · rw [if_neg (by tauto), if_neg h, mul_comm]
  · intro x hx
    rw [corrEntry, if_neg (by rw [sYY_self]; tauto)]
    congr 1
    rw [pearson, sXY_self, sYY_self]
    have hpos : (0 : ℝ) < (sXX (paired x x) : ℝ) := by
      have := sXX_nonneg (paired x x)
      have hne : (sXX (paired x x) : ℝ) ≠ 0 := by exact_mod_cast hx
      have : (0 : ℝ) ≤ (sXX (paired x x) : ℝ) := by exact_mod_cast this
      exact lt_of_le_of_ne this (Ne.symm hne)
    rw [Real.sqrt_mul_self (le_of_lt hpos)]
    exact div_self (ne_of_gt hpos)
  · intro x y r h
    rw [corrEntry] at h
    by_cases hg : sXX (paired x y) = 0 ∨ sYY (paired x y) = 0
    · rw [if_pos hg] at h; cases h
    · rw [if_neg hg] at h
      push_neg at hg
      have ha : (0 : ℝ) < (sXX (paired x y) : ℝ) := by
        have h1 := sXX_nonneg (paired x y)
        have h2 : (sXX (paired x y) : ℝ) ≠ 0 := by exact_mod_cast hg.1
        have h3 : (0 : ℝ) ≤ (sXX (paired x y) : ℝ) := by exact_mod_cast h1
        exact lt_of_le_of_ne h3 (Ne.symm h2)
      have hb : (0 : ℝ) < (sYY (paired x y) : ℝ) := by
        have h1 := sYY_nonneg (paired x y)
        have h2 : (sYY (paired x y) : ℝ) ≠ 0 := by exact_mod_cast hg.2
        have h3 : (0 : ℝ) ≤ (sYY (paired x y) : ℝ) := by exact_mod_cast h1
        exact lt_of_le_of_ne h3 (Ne.symm h2)
      have hr : r = (sXY (paired x y) : ℝ) /
          Real.sqrt ((sXX (paired x y) : ℝ) * (sYY (paired x y) : ℝ)) := by
        rw [pearson] at h
        exact (Option.some_inj.mp h).symm
      have hCS : ((sXY (paired x y) : ℝ)) ^ 2 ≤
          (sXX (paired x y) : ℝ) * (sYY (paired x y) : ℝ) := by
        have := sq_sXY_le (paired x y)
        rw [pow_two]
        exact_mod_cast this
      have hsq : Real.sqrt (((sXY (paired x y) : ℝ)) ^ 2) ≤
          Real.sqrt ((sXX (paired x y) : ℝ) * (sYY (paired x y) : ℝ)) :=
        Real.sqrt_le_sqrt hCS
      rw [Real.sqrt_sq_eq_abs] at hsq
      have hd : (0 : ℝ) < Real.sqrt ((sXX (paired x y) : ℝ) * (sYY (paired x y) : ℝ)) :=
        Real.sqrt_pos.mpr (mul_pos ha hb)
      have habs : |r| ≤ 1 := by
        rw [hr, abs_div, abs_of_nonneg (Real.sqrt_nonneg _)]
        exact (div_le_one hd).mpr hsq
      exact abs_le.mp habs

/-- Witness for C7: on the column `[0, 1]` the diagonal correlation entry
is exactly 1. -/
theorem c7_correlation_matrix_witness :
    corrEntry [PVal.num 0, PVal.num 1] [PVal.num 0, PVal.num 1] = some 1 := by
  have hp : paired [PVal.num 0, PVal.num 1] [PVal.num 0, PVal.num 1] =
      [(0, 0), (1, 1)] := by decide
  have hs : sXX (paired [PVal.num 0, PVal.num 1] [PVal.num 0, PVal.num 1]) = 1/2 := by
    rw [sXX, hp]
    norm_num [mean1]
  exact (c7_correlation_matrix [[PVal.num 0, PVal.num 1]]).2.2.2.1 _ (by rw [hs]; norm_num)

/-- **C8.** The PCA step first drops every row with a null analysis value
(`data_norm.dropna()`), then standardizes and projects with
`PCA(n_components=2)`: for any fitted component matrix with
`pcaNComponents = 2` rows, the projection has exactly one output row per
fully-complete input row and every output row has exactly 2
coordinates. -/
theorem c8_pca_complete_rows (W : List (List ℝ)) (rows : List (List PVal))
    (hW : W.length = pcaNComponents) :
    (pcaResult W rows).length = (rows.filter completeRow).length ∧
    ∀ r ∈ pcaResult W rows, r.length = 2 := by
  constructor
  · simp [pcaResult, pcaTransform, standardize, dropna]
  · intro r hr
    rcases List.mem_map.mp hr with ⟨v, _, hv⟩
    rw [← hv, List.length_map, hW]
    rfl

/-- Witness for C8: of two rows, one containing NaN, exactly one complete
row survives to the 2-component projection. -/
theorem c8_pca_complete_rows_witness :
    (pcaResult [[(1 : ℝ)], [0]] [[PVal.num 1, PVal.num 2], [PVal.nan, PVal.num 3]]).length = 1 ∧
    ∀ r ∈ pcaResult [[(1 : ℝ)], [0]] [[PVal.num 1, PVal.num 2], [PVal.nan, PVal.num 3]],
      r.length = 2 := by
  have h := c8_pca_complete_rows [[(1 : ℝ)], [0]]
    [[PVal.num 1, PVal.num 2], [PVal.nan, PVal.num 3]] rfl
  refine ⟨?_, h.2⟩
  rw [h.1]
  decide

/-- **C9.** Refinement: the code pivots the pre-aggregated Municipal-Year
sums with `pivot_table`'s default mean aggregation; because the group-by
leaves exactly one value per key, the mean-based pivot coincides with a
sum-based pivot on every cell. -/
theorem c9_mean_pivot_equals_sum_pivot :
    ∀ (recs : List IRec) (cd nm : String) (y : ℤ),
      pivotCell (groupSum recs) cd nm y = pivotCellSum (groupSum recs) cd nm y :=
  fun recs cd nm y =>
    (pivotCell_groupSum recs cd nm y).trans (pivotCellSum_groupSum recs cd nm y).symm

end Desmat
